import Mathlib

/-!
Verification of the Realtime-Leaderboard-Management-System backend (Go).

The development shallowly embeds the parts of the code that the checked
properties talk about:

* the Redis sorted set `leaderboard:global` and the rank queries
  (`internal/repository` : `GetUserRank`, `GetTopUsers`),
* the score-update orchestrator
  (`internal/service/leaderboard_service.go` : `UpdateUserScore`),
* the write-behind pipeline (`db_sync_service.go` : `EnqueueUpdate`,
  `processBatch`, `trimStream`),
* the search annotation (`search_service.go` : `SearchUsers`),
* the attribute-cache read (`GetCachedUser`),
* the WebSocket hub loop (`websocket/hub.go` : `Hub.Run`).

Machine integers: Go `int`/`int64` values here stay far from the word
boundaries (ratings are clamped to [100, 5000], ranks and counts are bounded
by the set size), so they are embedded as `Int` (and ids as `Nat`) without
wrap-around.  Redis scores are `float64` holding integer ratings in
[100, 5000], where integer/float comparisons agree, so scores are embedded
as `Int` as well.  Fallible calls return `Except`/`Option`; redis transport
is modelled as error-free except where a claim is about transport errors,
in which case the reply is passed in explicitly.
-/

set_option maxHeartbeats 1000000
set_option maxRecDepth 100000

deriving instance DecidableEq for Except

namespace Leaderboard

/-- A member of the sorted set `leaderboard:global`: the numeric user id
(the Go code stores the string `user:<id>` and parses the id back out;
the formatting round-trips, so the member is modelled by the id) paired
with its score (the rating). -/
abbrev Member := Nat × Int

/-- The sorted set holds each member at most once. -/
abbrev nodupKeys (board : List Member) : Prop := (board.map Prod.fst).Nodup

/-- The representation list is in the order `ZREVRANGE` observes:
scores non-increasing. -/
abbrev sortedDesc (board : List Member) : Prop :=
  List.Pairwise (fun a b : Member => b.2 ≤ a.2) board

/-- Redis `ZSCORE key member`: the score of the member, if present. -/
def ZScore (board : List Member) (uid : Nat) : Option Int :=
  (board.find? (fun p => p.1 == uid)).map Prod.snd

/-- Redis `ZCOUNT key (s +inf` as issued by `GetUserRank`: the number of
members with score strictly greater than `s` (exclusive lower bound). -/
def ZCountGreater (board : List Member) (s : Int) : Int :=
  ((board.filter (fun p => s < p.2)).length : Int)

/-- Go `leaderboardRepository.GetUserRank` (internal/repository, user.go
part): look up the member's score with `ZScore` (absent member: the
`redis.Nil` branch returns the error `user not found in leaderboard`),
then count members with strictly higher score and return `count + 1`. -/
def GetUserRank (board : List Member) (uid : Nat) : Except String Int :=
  match ZScore board uid with
  | none => Except.error "user not found in leaderboard"
  | some score => Except.ok (ZCountGreater board score + 1)

/-- Redis `ZREVRANGE key start stop` index arithmetic
(`genericZrangebyrankCommand`): negative indices count from the end of the
set, the range is clamped to the set, and an inverted or out-of-range
window is empty. -/
def ZRevRange (board : List Member) (start stop : Int) : List Member :=
  let llen : Int := board.length
  let start1 : Int := if start < 0 then llen + start else start
  let stop1 : Int := if stop < 0 then llen + stop else stop
  let start2 : Int := if start1 < 0 then 0 else start1
  if start2 > stop1 ∨ start2 ≥ llen then []
  else
    let stop2 : Int := if stop1 ≥ llen then llen - 1 else stop1
    (board.drop start2.toNat).take (stop2 - start2 + 1).toNat

/-- One row of the `GetTopUsers` reply (models.LeaderboardEntry). -/
structure LeaderboardEntry where
  rank : Int
  userID : Nat
  rating : Int
deriving DecidableEq, Repr

/-- The rank-assignment loop of `GetTopUsers`: `i` is the loop index,
`currentRank` and `previousScore` the loop-carried variables.  The body
re-bases `currentRank` to `i + 1` when the score changes (for `i > 0`)
and otherwise lets the entry inherit the previous rank. -/
def rankLoop : List Member → Nat → Int → Int → List LeaderboardEntry
  | [], _, _, _ => []
  | (uid, score) :: rest, i, currentRank, previousScore =>
    let r : Int := if 0 < i ∧ score ≠ previousScore then (i : Int) + 1 else currentRank
    { rank := r, userID := uid, rating := score } :: rankLoop rest (i + 1) r score

/-- Go `leaderboardRepository.GetTopUsers`: `ZRevRangeWithScores key 0
(limit-1)` followed by the rank-assignment loop started with index `0`,
`currentRank = 1` and `previousScore = 0` (the zero value of the Go
`var previousScore float64`). -/
def GetTopUsers (board : List Member) (limit : Int) : List LeaderboardEntry :=
  rankLoop (ZRevRange board 0 (limit - 1)) 0 1 0

/-- The user attribute record cached at `user:cache:<id>` (the fields of
`models.User` that `CacheUser` stores and `GetCachedUser` reads back:
id, username, rating). -/
structure CachedUser where
  id : Nat
  username : String
  rating : Int
deriving DecidableEq, Repr

/-- models.ScoreUpdatePayload: the score-update event published on the
fan-out channel and returned to the HTTP caller. -/
structure ScoreUpdatePayload where
  userID : Nat
  username : String
  oldRating : Int
  newRating : Int
  oldRank : Int
  newRank : Int
  rankDelta : Int
  ratingDelta : Int
  timestamp : Int
deriving DecidableEq, Repr

/-- models.DBSyncQueueItem: the write-behind item enqueued on the
`stream:score_updates` stream. -/
structure DBSyncQueueItem where
  userID : Nat
  oldRating : Int
  newRating : Int
  timestamp : Int
deriving DecidableEq, Repr

/-- The state `UpdateUserScore` reads and writes: the sorted set, the
attribute cache (`user:cache:<id>` hashes), the cold-store `users` rows it
may fall back to, the sequence of events published on the fan-out channel
and the sequence of write-behind items enqueued on the stream.  Redis and
bus transport are taken error-free here; the write-behind stream is the
producer-side view (consumer-group state lives in `PipeState` below). -/
structure World where
  board : List Member
  cache : List (Nat × CachedUser)
  dbUsers : List (Nat × CachedUser)
  published : List ScoreUpdatePayload
  stream : List DBSyncQueueItem
deriving DecidableEq, Repr

/-- The `GetCachedUser` read in the error-free-transport view: hash lookup keyed by
user id. -/
def lookupCache (cache : List (Nat × CachedUser)) (uid : Nat) : Option CachedUser :=
  (cache.find? (fun p => p.1 == uid)).map Prod.snd

/-- Go `userRepository.GetByID`: primary-key lookup in the cold store. -/
def getByID (db : List (Nat × CachedUser)) (uid : Nat) : Option CachedUser :=
  (db.find? (fun p => p.1 == uid)).map Prod.snd

/-- Go `CacheUser`: `HSET user:cache:<id>` — last-writer-wins replace of the
cached record. -/
def CacheUser (cache : List (Nat × CachedUser)) (u : CachedUser) :
    List (Nat × CachedUser) :=
  (u.id, u) :: cache.filter (fun p => p.1 != u.id)

/-- Redis `ZADD` as used by `AddUser`/`UpdateUserScore` (repository): set
the member's score, adding the member when absent.  The sorted set is a
finite map; rank reads above sort or count, so representation order is
irrelevant here. -/
def ZAdd (board : List Member) (uid : Nat) (score : Int) : List Member :=
  (uid, score) :: board.filter (fun p => p.1 != uid)

/-- STEP 1 of `UpdateUserScore`: read the user from the attribute cache,
falling back to the cold store on a miss. -/
def loadUser (w : World) (uid : Nat) : Option CachedUser :=
  match lookupCache w.cache uid with
  | some u => some u
  | none => getByID w.dbUsers uid

/-- The two sequential bound checks of `UpdateUserScore` (and of the
simulator): raise to 100, then cap to 5000. -/
def clampRating (r : Int) : Int :=
  if r < 100 then 100 else if r > 5000 then 5000 else r

/-- Go `leaderboardService.UpdateUserScore`
(internal/service/leaderboard_service.go): clamp the rating, load the user
(cache then cold store; unknown user fails), read the old rank (`NotFound`
becomes 0), `ZADD` the new rating, refresh the cached record, read the new
rank (failure becomes 0), build the payload with both deltas, publish it,
enqueue the write-behind item, and return the payload.  `now` stands for
`time.Now()` of the call.  The error string abbreviates the wrapped
`user not found: %w` error. -/
def UpdateUserScore (w : World) (userID : Nat) (requested : Int) (now : Int) :
    Except String ScoreUpdatePayload × World :=
  let newRating1 := if requested < 100 then (100 : Int) else requested
  let newRating := if newRating1 > 5000 then (5000 : Int) else newRating1
  match loadUser w userID with
  | none => (Except.error "user not found", w)
  | some user =>
    let oldRating := user.rating
    let oldRank : Int :=
      match GetUserRank w.board userID with
      | Except.ok r => r
      | Except.error _ => 0
    let board := ZAdd w.board userID newRating
    let user' : CachedUser := { user with rating := newRating }
    let cache := CacheUser w.cache user'
    let newRank : Int :=
      match GetUserRank board userID with
      | Except.ok r => r
      | Except.error _ => 0
    let rankDelta := oldRank - newRank
    let ratingDelta := newRating - oldRating
    let payload : ScoreUpdatePayload :=
      { userID := userID, username := user.username, oldRating := oldRating,
        newRating := newRating, oldRank := oldRank, newRank := newRank,
        rankDelta := rankDelta, ratingDelta := ratingDelta, timestamp := now }
    (Except.ok payload,
      { board := board, cache := cache, dbUsers := w.dbUsers,
        published := w.published ++ [payload],
        stream := w.stream ++ [{ userID := userID, oldRating := oldRating,
                                 newRating := newRating, timestamp := now }] })

/-- The empty state (no users anywhere): a concrete test fixture. -/
def emptyWorld : World :=
  { board := [], cache := [], dbUsers := [], published := [], stream := [] }

/-- Fixture: a single cached user `alice` with rating 1500. -/
def aliceWorld : World :=
  { board := [], cache := [(1, { id := 1, username := "alice", rating := 1500 })],
    dbUsers := [], published := [], stream := [] }

/-- The payload `UpdateUserScore aliceWorld 1 50 7` produces. -/
def alicePayload : ScoreUpdatePayload :=
  { userID := 1, username := "alice", oldRating := 1500, newRating := 100,
    oldRank := 0, newRank := 1, rankDelta := -1, ratingDelta := -1400,
    timestamp := 7 }

/-- The state `UpdateUserScore aliceWorld 1 50 7` produces. -/
def aliceWorld' : World :=
  { board := [(1, 100)],
    cache := [(1, { id := 1, username := "alice", rating := 100 })],
    dbUsers := [], published := [alicePayload],
    stream := [{ userID := 1, oldRating := 1500, newRating := 100, timestamp := 7 }] }

/-- Fixture: spec scenario 2 — seeded board `A=5000, B=4900, C=4900` with
`B` cached, before the update `B: 4900 → 4950`. -/
def scen2World : World :=
  { board := [(1, 5000), (2, 4900), (3, 4900)],
    cache := [(2, { id := 2, username := "B", rating := 4900 })],
    dbUsers := [], published := [], stream := [] }

/-- The payload `UpdateUserScore scen2World 2 4950 9` produces. -/
def scen2Payload : ScoreUpdatePayload :=
  { userID := 2, username := "B", oldRating := 4900, newRating := 4950,
    oldRank := 2, newRank := 2, rankDelta := 0, ratingDelta := 50,
    timestamp := 9 }

/-- The state `UpdateUserScore scen2World 2 4950 9` produces. -/
def scen2World' : World :=
  { board := [(2, 4950), (1, 5000), (3, 4900)],
    cache := [(2, { id := 2, username := "B", rating := 4950 })],
    dbUsers := [], published := [scen2Payload],
    stream := [{ userID := 2, oldRating := 4900, newRating := 4950, timestamp := 9 }] }

/-- One entry of the `stream:score_updates` Redis stream: the entry id
(ids are assigned in strictly increasing order; modelled as a counter)
and the JSON-encoded write-behind item carried in the `data` field
(well-formed here; an unparseable entry is skipped unacknowledged by the
worker and does not participate in the claims below). -/
structure StreamEntry where
  id : Nat
  item : DBSyncQueueItem
deriving DecidableEq, Repr

/-- One row of the cold store's `score_updates` history table, as
`processBatch` creates it. -/
structure ScoreUpdateRow where
  userID : Nat
  oldRating : Int
  newRating : Int
  change : Int
  updatedAt : Int
deriving DecidableEq, Repr

/-- The history row `processBatch` appends for one item. -/
def historyRow (it : DBSyncQueueItem) : ScoreUpdateRow :=
  { userID := it.userID, oldRating := it.oldRating, newRating := it.newRating,
    change := it.newRating - it.oldRating, updatedAt := it.timestamp }

/-- The state of the write-behind pipeline: the stream, its id counter,
the `db-sync-group` consumer-group cursor (`lastDelivered`) and pending
entry list (`pel` — delivered but unacknowledged ids), the cold-store
`users` ratings and `score_updates` history, and the worker's batch
counter. -/
structure PipeState where
  entries : List StreamEntry
  nextId : Nat
  lastDelivered : Nat
  pel : List Nat
  users : List (Nat × Int)
  history : List ScoreUpdateRow
  batchCounter : Nat
deriving DecidableEq, Repr

/-- Go `EnqueueUpdate`: `XADD` appends the item to the stream under a fresh
increasing id. -/
def EnqueueUpdate (s : PipeState) (it : DBSyncQueueItem) : PipeState :=
  { s with entries := s.entries ++ [{ id := s.nextId, item := it }],
           nextId := s.nextId + 1 }

/-- The batch one `XREADGROUP ... >` delivers: up to `BatchSize = 100`
entries newer than the group cursor. -/
def newMessages (s : PipeState) : List StreamEntry :=
  (s.entries.filter (fun e => s.lastDelivered < e.id)).take 100

/-- One `UPDATE users SET rating = ? WHERE id = ?` of the transaction:
last-writer-wins on the existing row; a missing row updates nothing. -/
def applyItem (users : List (Nat × Int)) (it : DBSyncQueueItem) : List (Nat × Int) :=
  users.map (fun p => if p.1 == it.userID then (p.1, it.newRating) else p)

/-- Go `trimStream`: `XTRIM MAXLEN 100` keeps only the most recent
`StreamMaxLen = 100` entries, regardless of acknowledgement state. -/
def trimStream (s : PipeState) : PipeState :=
  { s with entries := s.entries.drop (s.entries.length - 100) }

/-- Go `processBatch`: read a batch from the consumer group (delivery moves
the cursor and records the ids as pending), run the cold-store
transaction (`commitOk` is its outcome), and only on commit: apply every
item, append its history row, `XACK` exactly the batch ids, bump the
batch counter and trim the stream every `TrimEveryNBatches = 10`
successful batches (`go s.trimStream()` modelled as running right
after). On failure nothing is acknowledged and the store is untouched. -/
def processBatch (s : PipeState) (commitOk : Bool) : PipeState :=
  let msgs := newMessages s
  if msgs.isEmpty then s
  else
    let ids := msgs.map StreamEntry.id
    let items := msgs.map StreamEntry.item
    let s1 := { s with lastDelivered := (ids.getLast?).getD s.lastDelivered,
                       pel := s.pel ++ ids }
    if commitOk then
      let users' := items.foldl applyItem s1.users
      let history' := s1.history ++ items.map historyRow
      let pel' := s1.pel.filter (fun i => ¬ ids.contains i)
      let counter := s1.batchCounter + 1
      let s2 := { s1 with users := users', history := history', pel := pel',
                          batchCounter := counter }
      if counter % 10 == 0 then trimStream s2 else s2
    else s1

/-- The ids of the batch one worker pass delivers. -/
def batchIds (s : PipeState) : List Nat := (newMessages s).map StreamEntry.id

/-- The items of the batch one worker pass delivers. -/
def batchItems (s : PipeState) : List DBSyncQueueItem :=
  (newMessages s).map StreamEntry.item

/-- The committed-and-acknowledged state one successful worker pass
produces before any trim (a restatement of the success path of
`processBatch` used to phrase its properties). -/
def pbCommit (s : PipeState) : PipeState :=
  { entries := s.entries, nextId := s.nextId,
    lastDelivered := (batchIds s).getLast?.getD s.lastDelivered,
    pel := (s.pel ++ batchIds s).filter (fun j => ¬ (batchIds s).contains j),
    users := (batchItems s).foldl applyItem s.users,
    history := s.history ++ (batchItems s).map historyRow,
    batchCounter := s.batchCounter + 1 }

/-- One observable action of the pipeline: a producer enqueue or one
worker loop iteration with the given transaction outcome. -/
inductive PipeOp where
  | enqueue (it : DBSyncQueueItem)
  | processOnce (commitOk : Bool)
deriving DecidableEq, Repr

def pipeStep (s : PipeState) : PipeOp → PipeState
  | PipeOp.enqueue it => EnqueueUpdate s it
  | PipeOp.processOnce ok => processBatch s ok

def runPipe (s : PipeState) (ops : List PipeOp) : PipeState :=
  ops.foldl pipeStep s

/-- Initial pipeline state: empty stream, one cold-store user. -/
def initPipe : PipeState :=
  { entries := [], nextId := 1, lastDelivered := 0, pel := [], users := [(1, 1500)],
    history := [], batchCounter := 0 }

/-- A reachable run that drops an unacknowledged item: 9 enqueue+drain
rounds (batch counter reaches 9), then 101 enqueues, one worker pass
whose transaction fails (ids 10–109 delivered, unacknowledged), and one
succeeding pass (id 110) that acknowledges, reaches batch 10 and trims
the 110-entry stream down to its last 100 entries — dropping entry 10,
which is still pending and was never applied. -/
def badTrace : List PipeOp :=
  ((List.range 9).map (fun i =>
      [PipeOp.enqueue { userID := 1, oldRating := 1500, newRating := 1501 + (i : Int),
                        timestamp := (i : Int) },
       PipeOp.processOnce true])).flatten
    ++ (List.range 101).map (fun j =>
        PipeOp.enqueue { userID := 1, oldRating := 1500, newRating := 1600 + (j : Int),
                         timestamp := 9 + (j : Int) })
    ++ [PipeOp.processOnce false, PipeOp.processOnce true]

/-- Fixture item for the amended-C3 witness. -/
def fixItem : DBSyncQueueItem :=
  { userID := 1, oldRating := 1500, newRating := 1400, timestamp := 3 }

/-- Fixture for the amended-C3 witness: one fresh entry in the stream. -/
def pipeFix : PipeState :=
  { entries := [{ id := 1, item := fixItem }], nextId := 2, lastDelivered := 0,
    pel := [], users := [(1, 1500)], history := [], batchCounter := 0 }

/-- models.SearchResult: a search hit annotated with its global rank. -/
structure SearchResult where
  globalRank : Int
  userID : Nat
  username : String
  rating : Int
deriving DecidableEq, Repr

/-- The contract Go's `sort.Slice(x, less)` documents — and all it
documents: the result is a permutation of the input ordered by the less
function.  Stability is explicitly not guaranteed (`sort.SliceStable` is
the stable variant), so `SearchUsers` is parameterised over any function
meeting this contract. -/
def SortsBy {α : Type} (le : α → α → Prop) (f : List α → List α) : Prop :=
  ∀ l, (f l).Perm l ∧ List.Pairwise le (f l)

/-- The per-candidate body of the `SearchUsers` loop: look up the global
rank, skip the candidate when the lookup fails, otherwise build the
result row from the candidate's row and the rank. -/
def annotate (board : List Member) (u : CachedUser) : Option SearchResult :=
  match GetUserRank board u.id with
  | Except.error _ => none
  | Except.ok rank =>
    some { globalRank := rank, userID := u.id, username := u.username,
           rating := u.rating }

/-- Go `searchService.SearchUsers` (service, part_004): empty query returns
nothing; otherwise take the candidates the cold-store username search
produced (passed in here, ordered as the database returned them), sort
by rating descending (`sort.Slice`), truncate to `limit`, annotate each
candidate with its current rank — dropping candidates whose rank lookup
fails — and sort the results by rating descending again. -/
def SearchUsers (sortU : List CachedUser → List CachedUser)
    (sortR : List SearchResult → List SearchResult)
    (board : List Member) (query : String) (limit : Nat)
    (candidates : List CachedUser) : List SearchResult :=
  if query.length < 1 then []
  else
    let users := sortU candidates
    let users2 := if users.length > limit then users.take limit else users
    let results := users2.filterMap (annotate board)
    sortR results

/-- A total order on candidates: rating descending, ties by id
descending — one possible outcome of an unstable sort by rating. -/
def userLe (a b : CachedUser) : Prop :=
  b.rating < a.rating ∨ (b.rating = a.rating ∧ b.id ≤ a.id)

/-- A total order on search results: rating descending, ties by user id
descending. -/
def resultLe (a b : SearchResult) : Prop :=
  b.rating < a.rating ∨ (b.rating = a.rating ∧ b.userID ≤ a.userID)

instance : DecidableRel userLe := fun a b =>
  decidable_of_iff (b.rating < a.rating ∨ (b.rating = a.rating ∧ b.id ≤ a.id))
    Iff.rfl

instance : DecidableRel resultLe := fun a b =>
  decidable_of_iff
    (b.rating < a.rating ∨ (b.rating = a.rating ∧ b.userID ≤ a.userID)) Iff.rfl

instance : IsTotal CachedUser userLe :=
  ⟨fun a b => by unfold userLe; omega⟩

instance : IsTrans CachedUser userLe :=
  ⟨fun a b c hab hbc => by unfold userLe at hab hbc ⊢; omega⟩

instance : IsTotal SearchResult resultLe :=
  ⟨fun a b => by unfold resultLe; omega⟩

instance : IsTrans SearchResult resultLe :=
  ⟨fun a b c hab hbc => by unfold resultLe at hab hbc ⊢; omega⟩

/-- A sort meeting `sort.Slice`'s contract for the user sort that breaks
rating ties by id descending. -/
def mySortUsers : List CachedUser → List CachedUser :=
  List.insertionSort userLe

/-- A sort meeting `sort.Slice`'s contract for the result sort that
breaks rating ties by user id descending. -/
def mySortResults : List SearchResult → List SearchResult :=
  List.insertionSort resultLe

/-- The reply of the single `HGETALL user:cache:<id>` call `GetCachedUser`
issues: either the field list (empty on a missing key — a cache miss) or
a transport error. -/
inductive HGetAllReply where
  | ok (fields : List (String × String))
  | err (msg : String)
deriving DecidableEq, Repr

/-- Reading one field of an `HGETALL` reply; a missing field is the empty
string, as with a Go map. -/
def hgetField (fields : List (String × String)) (k : String) : String :=
  ((fields.find? (fun p => p.1 == k)).map Prod.snd).getD ""

/-- The digit value of a character, if it is a decimal digit. -/
def digitVal (c : Char) : Option Nat :=
  if 48 ≤ c.toNat ∧ c.toNat ≤ 57 then some (c.toNat - 48) else none

/-- Decimal accumulation over the characters of a numeral. -/
def parseNatCore : List Char → Nat → Option Nat
  | [], acc => some acc
  | c :: cs, acc =>
    match digitVal c with
    | none => none
    | some d => parseNatCore cs (acc * 10 + d)

/-- Go `strconv.ParseUint(s, 10, 32)` on the strings at hand: empty or
non-numeric input fails (the caller ignores the error, leaving the zero
value); the 32-bit range clamp is not modelled — cached ids fit. -/
def parseNatStr (s : String) : Option Nat :=
  if s.data.isEmpty then none else parseNatCore s.data 0

/-- Go `strconv.Atoi`: an optional sign (codes 45 and 43) followed by
digits. -/
def parseIntStr (s : String) : Option Int :=
  match s.data with
  | [] => none
  | c :: cs =>
    if c.toNat = 45 then
      if cs.isEmpty then none else (parseNatCore cs 0).map (fun n => -(n : Int))
    else if c.toNat = 43 then
      if cs.isEmpty then none else (parseNatCore cs 0).map (fun n => (n : Int))
    else (parseNatCore (c :: cs) 0).map (fun n => (n : Int))

/-- Go `leaderboardRepository.GetCachedUser`: one `HGETALL`; a transport
error **or** an empty reply both return the error `user not in cache`;
otherwise the fields are parsed (`ParseUint`/`Atoi` with ignored errors:
unparseable numbers become 0).  No retry is issued — the function is a
single call on one reply. -/
def GetCachedUserRepo (reply : HGetAllReply) : Except String CachedUser :=
  match reply with
  | HGetAllReply.err _ => Except.error "user not in cache"
  | HGetAllReply.ok fields =>
    if fields.length = 0 then Except.error "user not in cache"
    else
      Except.ok
        { id := (parseNatStr (hgetField fields "id")).getD 0,
          username := hgetField fields "username",
          rating := (parseIntStr (hgetField fields "rating")).getD 0 }

/-- The events the hub loop (`Hub.Run`) multiplexes: a registration, an
unregistration (from `ReadPump`'s deferred `Unregister`), or a broadcast
during which the clients in `full` have a saturated send buffer.
Clients are identified by ids standing for the Go `*Client` pointers. -/
inductive HubEvent where
  | register (c : Nat)
  | unregister (c : Nat)
  | broadcast (full : List Nat)
deriving DecidableEq, Repr

/-- The hub's registry together with the log of `close(client.send)`
calls performed so far (a client appearing twice in `closes` would be a
double close — a Go runtime panic). -/
structure HubState where
  clients : List Nat
  closes : List Nat
deriving DecidableEq, Repr

/-- One iteration of `Hub.Run`'s select loop, entirely under `h.mu`:
register inserts into the map; unregister closes and deletes only when
the client is still present; broadcast evicts (close + delete, same
critical section) exactly the clients whose buffer is full. -/
def hubStep (s : HubState) : HubEvent → HubState
  | HubEvent.register c =>
    if c ∈ s.clients then s
    else { clients := c :: s.clients, closes := s.closes }
  | HubEvent.unregister c =>
    if c ∈ s.clients then
      { clients := s.clients.erase c, closes := s.closes ++ [c] }
    else s
  | HubEvent.broadcast full =>
    { clients := s.clients.filter (fun c => ¬ full.contains c),
      closes := s.closes ++ s.clients.filter (fun c => full.contains c) }

/-- A hub run from the empty registry. -/
def runHub (events : List HubEvent) : HubState :=
  events.foldl hubStep { clients := [], closes := [] }

/-- The ids registered along a run.  Each Go `*Client` is a fresh
allocation registered once, so a run's register ids are pairwise
distinct. -/
def registerIds (events : List HubEvent) : List Nat :=
  events.filterMap (fun e =>
    match e with
    | HubEvent.register c => some c
    | _ => none)

/-- Invariant of the hub loop relative to the ids registered so far:
no duplicate registrations, no channel closed twice, no live client
already closed, and both lists drawn from the registered ids. -/
def HubInv (s : HubState) (reg : List Nat) : Prop :=
  s.clients.Nodup ∧ s.closes.Nodup ∧ (∀ c ∈ s.clients, c ∉ s.closes) ∧
  (∀ c ∈ s.clients, c ∈ reg) ∧ (∀ c ∈ s.closes, c ∈ reg)

/-- Search fixture: candidate `ann`, id 1, rating 1000. -/
def candA : CachedUser := { id := 1, username := "ann", rating := 1000 }

/-- Search fixture: candidate `anna`, id 2, same rating 1000. -/
def candB : CachedUser := { id := 2, username := "anna", rating := 1000 }

/-- Search fixture: both candidates on the board with equal scores. -/
def searchBoard : List Member := [(1, 1000), (2, 1000)]

/-- Hub fixture: two clients, a broadcast that evicts client 1, then the
late `Unregister` from client 1's `ReadPump` (a no-op: already evicted),
then client 2 disconnecting. -/
def hubTrace : List HubEvent :=
  [HubEvent.register 1, HubEvent.register 2, HubEvent.broadcast [1],
   HubEvent.unregister 1, HubEvent.unregister 2]

lemma find?_eq_some_of_nodupKeys {board : List Member} {uid : Nat} {s : Int}
    (hnd : nodupKeys board) (hmem : (uid, s) ∈ board) :
    board.find? (fun p => p.1 == uid) = some (uid, s) := by
  induction board with
  | nil => simp at hmem
  | cons hd tl ih =>
    obtain ⟨v, t⟩ := hd
    simp only [nodupKeys, List.map_cons, List.nodup_cons] at hnd
    rcases List.mem_cons.mp hmem with heq | htl
    · rw [← heq]
      rw [List.find?_cons_of_pos]
      simp
    · by_cases hv : v = uid
      · exact absurd (List.mem_map.mpr ⟨(uid, s), htl, hv.symm⟩) hnd.1
      · rw [List.find?_cons_of_neg]
        · exact ih hnd.2 htl
        · simp [hv]

lemma ZScore_eq_some {board : List Member} {uid : Nat} {s : Int}
    (hnd : nodupKeys board) (hmem : (uid, s) ∈ board) :
    ZScore board uid = some s := by
  unfold ZScore
  rw [find?_eq_some_of_nodupKeys hnd hmem]
  rfl

lemma ZScore_eq_none {board : List Member} {uid : Nat}
    (habs : uid ∉ board.map Prod.fst) :
    ZScore board uid = none := by
  unfold ZScore
  have : board.find? (fun p => p.1 == uid) = none := by
    rw [List.find?_eq_none]
    intro p hp hbeq
    exact habs (List.mem_map.mpr ⟨p, hp, by simpa using hbeq⟩)
  rw [this]
  rfl

/-- C1: for every sorted-set state and every user present in it,
`GetUserRank` returns 1 + (the number of members whose score is strictly
greater than that user's score); for a user absent from the sorted set it
fails with the not-found error. -/
theorem C1_getUserRank_spec (board : List Member) (uid : Nat) :
    (∀ s : Int, nodupKeys board → (uid, s) ∈ board →
      GetUserRank board uid =
        Except.ok (1 + (board.countP (fun p => s < p.2) : Int)))
    ∧ (uid ∉ board.map Prod.fst →
      GetUserRank board uid = Except.error "user not found in leaderboard") := by
  constructor
  · intro s hnd hmem
    unfold GetUserRank
    rw [ZScore_eq_some hnd hmem]
    unfold ZCountGreater
    rw [List.countP_eq_length_filter]
    exact congrArg Except.ok (by omega)
  · intro habs
    unfold GetUserRank
    rw [ZScore_eq_none habs]

/-- Witness for C1 on a concrete two-member board. -/
theorem C1_getUserRank_spec_witness :
    GetUserRank [(7, 300), (5, 500)] 7 = Except.ok 2 ∧
    GetUserRank [(7, 300), (5, 500)] 9 =
      Except.error "user not found in leaderboard" := by
  constructor
  · have h := (C1_getUserRank_spec [(7, 300), (5, 500)] 7).1 300 (by decide) (by decide)
    rw [h]
    decide
  · exact (C1_getUserRank_spec [(7, 300), (5, 500)] 9).2 (by decide)

/-- C7 counterexample: `GetTopUsers` with `limit = 0` passes `stop = -1` to
`ZREVRANGE`; Redis interprets the negative index as the last element, so on
a one-member board the call returns that member instead of the empty
sequence the claim demands. -/
theorem C7_counterexample :
    GetTopUsers [(1, 1500)] 0 = [{ rank := 1, userID := 1, rating := 1500 }] ∧
    GetTopUsers [(1, 1500)] 0 ≠ [] := by decide

lemma ZRevRange_from_zero (board : List Member) (stop : Int) :
    ZRevRange board 0 stop =
      board.take (if stop < 0 then ((board.length : Int) + stop + 1).toNat
                  else stop.toNat + 1) := by
  simp only [ZRevRange]
  rw [if_neg (by omega : ¬ (0 : Int) < 0)]
  by_cases hs : stop < 0
  · rw [if_pos hs, if_neg (by omega : ¬ (0 : Int) < 0), if_pos hs]
    by_cases hempty : (0 : Int) > (board.length : Int) + stop ∨
        (0 : Int) ≥ (board.length : Int)
    · rw [if_pos hempty]
      rcases hempty with hlt | hge
      · rw [(by omega : ((board.length : Int) + stop + 1).toNat = 0), List.take_zero]
      · have hb : board = [] := List.length_eq_zero.mp (by omega)
        rw [hb, List.take_nil]
    · rw [if_neg hempty]
      push_neg at hempty
      rw [if_neg (by omega : ¬ (board.length : Int) + stop ≥ (board.length : Int))]
      rw [(by omega : ((0 : Int)).toNat = 0), List.drop_zero]
      congr 1
      omega
  · rw [if_neg hs, if_neg (by omega : ¬ (0 : Int) < 0), if_neg hs]
    by_cases hempty : (0 : Int) > stop ∨ (0 : Int) ≥ (board.length : Int)
    · rw [if_pos hempty]
      rcases hempty with hlt | hge
      · omega
      · have hb : board = [] := List.length_eq_zero.mp (by omega)
        rw [hb, List.take_nil]
    · rw [if_neg hempty]
      push_neg at hempty
      rw [(by omega : ((0 : Int)).toNat = 0), List.drop_zero]
      by_cases hbig : stop ≥ (board.length : Int)
      · rw [if_pos hbig]
        rw [(by omega : ((board.length : Int) - 1 - 0 + 1).toNat = board.length)]
        rw [List.take_length]
        exact (List.take_of_length_le (by omega)).symm
      · rw [if_neg hbig]
        congr 1
        omega

/-- C7 amended: for `limit ≤ 0` the call `ZRevRangeWithScores key 0
(limit-1)` hits Redis's negative-index semantics, so `GetTopUsers` returns
the first `size + limit` members (the whole set when `limit = 0`), ranked
by the usual loop; it is empty only when `size + limit ≤ 0`. -/
theorem C7_topUsers_nonpositive_limit (board : List Member) (limit : Int)
    (h : limit ≤ 0) :
    GetTopUsers board limit =
      rankLoop (board.take ((board.length : Int) + limit).toNat) 0 1 0 := by
  unfold GetTopUsers
  rw [ZRevRange_from_zero]
  rw [if_pos (by omega : limit - 1 < 0)]
  congr 2
  omega

/-- Witness for the amended C7 on a concrete board with `limit = -1`. -/
theorem C7_topUsers_nonpositive_limit_witness :
    GetTopUsers [(1, 100), (2, 90), (3, 90)] (-1) =
      [{ rank := 1, userID := 1, rating := 100 },
       { rank := 2, userID := 2, rating := 90 }] := by
  rw [C7_topUsers_nonpositive_limit [(1, 100), (2, 90), (3, 90)] (-1) (by decide)]
  decide

lemma ZCountGreater_eq_zero {l : List Member} {s : Int}
    (h : ∀ b ∈ l, b.2 ≤ s) : ZCountGreater l s = 0 := by
  unfold ZCountGreater
  rw [List.filter_eq_nil_iff.mpr]
  · rfl
  · intro b hb
    simpa using not_lt.mpr (h b hb)

lemma getLast?_min {l : List Member} (hs : sortedDesc l) {lp : Member}
    (h : l.getLast? = some lp) : ∀ a ∈ l, lp.2 ≤ a.2 := by
  obtain ⟨ys, rfl⟩ := List.getLast?_eq_some_iff.mp h
  have hs' : List.Pairwise (fun a b : Member => b.2 ≤ a.2) ys ∧ _ ∧
      ∀ a ∈ ys, ∀ b ∈ [lp], b.2 ≤ a.2 := List.pairwise_append.mp hs
  intro a ha
  rcases List.mem_append.mp ha with hy | hl
  · exact hs'.2.2 a hy lp (by simp)
  · rw [List.mem_singleton.mp hl]

lemma rankLoop_eq_map (full : List Member) (hs : sortedDesc full) :
    ∀ (rest pre : List Member) (curRank prevScore : Int),
      full = pre ++ rest →
      (pre = [] → curRank = 1) →
      (∀ lp, pre.getLast? = some lp →
        prevScore = lp.2 ∧ curRank = 1 + ZCountGreater full lp.2) →
      rankLoop rest pre.length curRank prevScore =
        rest.map (fun p =>
          { rank := 1 + ZCountGreater full p.2, userID := p.1, rating := p.2 }) := by
  intro rest
  induction rest with
  | nil => intro pre curRank prevScore _ _ _; rfl
  | cons hd rest' ih =>
    intro pre curRank prevScore hfull hinv0 hinv1
    obtain ⟨uid, s⟩ := hd
    have hr : (if 0 < pre.length ∧ s ≠ prevScore then (pre.length : Int) + 1 else curRank)
        = 1 + ZCountGreater full s := by
      rcases List.eq_nil_or_concat pre with hpre | ⟨ys, lp, hpre⟩
      · subst hpre
        rw [if_neg (by simp)]
        rw [hinv0 rfl]
        have hzero : ZCountGreater full s = 0 := by
          apply ZCountGreater_eq_zero
          intro b hb
          have hs' : List.Pairwise (fun a b : Member => b.2 ≤ a.2) ((uid, s) :: rest') := by
            have h0 := hfull ▸ hs
            simpa using h0
          rw [hfull] at hb
          simp only [List.nil_append] at hb
          rcases List.mem_cons.mp hb with hb1 | hb2
          · rw [hb1]
          · exact (List.pairwise_cons.mp hs').1 b hb2
        rw [hzero]
        omega
      · rw [List.concat_eq_append] at hpre
        have hlast : pre.getLast? = some lp := by rw [hpre]; exact List.getLast?_concat ys
        obtain ⟨hprev, hcur⟩ := hinv1 lp hlast
        have hsplit : List.Pairwise (fun a b : Member => b.2 ≤ a.2) pre ∧
            List.Pairwise (fun a b : Member => b.2 ≤ a.2) ((uid, s) :: rest') ∧
            ∀ a ∈ pre, ∀ b ∈ (uid, s) :: rest', b.2 ≤ a.2 := by
          have h0 : List.Pairwise (fun a b : Member => b.2 ≤ a.2)
              (pre ++ (uid, s) :: rest') := hfull ▸ hs
          exact List.pairwise_append.mp h0
        have hlpmem : lp ∈ pre := by rw [hpre]; simp
        have hsle : s ≤ lp.2 := hsplit.2.2 lp hlpmem (uid, s) (by simp)
        by_cases hne : s = prevScore
        · rw [if_neg (by simp [hne])]
          rw [hcur, hne, hprev]
        · rw [if_pos ⟨by rw [hpre]; simp, hne⟩]
          have hslt : s < lp.2 := lt_of_le_of_ne hsle (fun h => hne (by rw [hprev, ← h]))
          have hcount : ZCountGreater full s = (pre.length : Int) := by
            unfold ZCountGreater
            rw [hfull, List.filter_append]
            have h1 : pre.filter (fun p => decide (s < p.2)) = pre := by
              rw [List.filter_eq_self]
              intro a ha
              exact decide_eq_true (lt_of_lt_of_le hslt (getLast?_min hsplit.1 hlast a ha))
            have h2 : ((uid, s) :: rest').filter (fun p => decide (s < p.2)) = [] := by
              rw [List.filter_eq_nil_iff]
              intro b hb
              rcases List.mem_cons.mp hb with hb1 | hb2
              · rw [hb1]; simp
              · have := (List.pairwise_cons.mp hsplit.2.1).1 b hb2
                simp only [decide_eq_true_eq]
                omega
            rw [h1, h2, List.append_nil]
          rw [hcount]
          omega
    show (let r : Int := if 0 < pre.length ∧ s ≠ prevScore then (pre.length : Int) + 1 else curRank;
      { rank := r, userID := uid, rating := s } :: rankLoop rest' (pre.length + 1) r s) = _
    simp only [hr, List.map_cons]
    congr 1
    have hfull' : full = (pre ++ [(uid, s)]) ++ rest' := by
      rw [hfull]; simp
    have := ih (pre ++ [(uid, s)]) (1 + ZCountGreater full s) s hfull'
      (by intro h; exact absurd h (by simp))
      (by
        intro lp hlp
        rw [List.getLast?_concat] at hlp
        obtain rfl : lp = (uid, s) := by injection hlp with h; exact h.symm
        exact ⟨rfl, rfl⟩)
    simpa using this

lemma take_cross_le {board : List Member} {n : Nat} (hs : sortedDesc board) :
    ∀ a ∈ board.take n, ∀ b ∈ board.drop n, b.2 ≤ a.2 := by
  have hsp : List.Pairwise (fun a b : Member => b.2 ≤ a.2)
      (board.take n ++ board.drop n) := by
    rw [List.take_append_drop]
    exact hs
  exact (List.pairwise_append.mp hsp).2.2

lemma ZCountGreater_take {board : List Member} {n : Nat} {p : Member}
    (hs : sortedDesc board) (hp : p ∈ board.take n) :
    ZCountGreater (board.take n) p.2 = ZCountGreater board p.2 := by
  conv_rhs => rw [← List.take_append_drop n board]
  unfold ZCountGreater
  rw [List.filter_append]
  have h2 : (board.drop n).filter (fun q => decide (p.2 < q.2)) = [] := by
    rw [List.filter_eq_nil_iff]
    intro b hb
    have := take_cross_le hs p hp b hb
    simp only [decide_eq_true_eq]
    omega
  rw [h2, List.append_nil]

lemma getTopUsers_eq_map (board : List Member) (limit : Int)
    (hs : sortedDesc board) (hpos : 0 < limit) :
    GetTopUsers board limit =
      (board.take limit.toNat).map (fun p =>
        { rank := 1 + ZCountGreater board p.2, userID := p.1, rating := p.2 }) := by
  unfold GetTopUsers
  rw [ZRevRange_from_zero, if_neg (by omega : ¬ limit - 1 < 0),
    (by omega : (limit - 1).toNat + 1 = limit.toNat)]
  have hst : sortedDesc (board.take limit.toNat) :=
    List.Pairwise.sublist (List.take_sublist _ _) hs
  have h := rankLoop_eq_map (board.take limit.toNat) hst (board.take limit.toNat) [] 1 0
    (by simp) (fun _ => rfl) (by intro lp hlp; simp at hlp)
  simp only [List.length_nil] at h
  rw [h]
  exact List.map_congr_left (fun p hp => by rw [ZCountGreater_take hs hp])

lemma countP_gt_split {l : List Member} {s s' : Int} (hlt : s' < s)
    (hno : ∀ b ∈ l, ¬ (s' < b.2 ∧ b.2 < s)) :
    l.countP (fun p => s' < p.2) =
      l.countP (fun p => s < p.2) + l.countP (fun p => p.2 == s) := by
  induction l with
  | nil => rfl
  | cons b t ih =>
    simp only [List.countP_cons, decide_eq_true_eq, beq_iff_eq]
    have hb := hno b (List.mem_cons_self b t)
    have ht := ih (fun x hx => hno x (List.mem_cons_of_mem b hx))
    by_cases h1 : s' < b.2
    · by_cases h3 : b.2 = s
      · rw [if_pos h1, if_neg (by omega : ¬ s < b.2), if_pos h3]
        omega
      · have h2 : s < b.2 := by
          rcases lt_or_ge b.2 s with hlt2 | hge
          · exact absurd ⟨h1, hlt2⟩ hb
          · omega
        rw [if_pos h1, if_pos h2, if_neg h3]
        omega
    · rw [if_neg h1, if_neg (by omega : ¬ s < b.2), if_neg (by omega : ¬ b.2 = s)]
      omega

lemma ZCountGreater_split {board : List Member} {s s' : Int} (hlt : s' < s)
    (hno : ∀ b ∈ board, ¬ (s' < b.2 ∧ b.2 < s)) :
    ZCountGreater board s' =
      ZCountGreater board s + (board.countP (fun p => p.2 == s) : Int) := by
  unfold ZCountGreater
  rw [← List.countP_eq_length_filter, ← List.countP_eq_length_filter,
    countP_gt_split hlt hno]
  push_cast
  ring

/-- C2: on every sorted-set state and for every positive limit, the rank
`GetTopUsers` assigns to each returned entry is the rank `GetUserRank`
computes for that user on the same state; consequently entries with equal
ratings carry equal ranks, and when an entry is followed by one of a
different rating, the follower's rank exceeds it by the size of the
leader's tie group. -/
theorem C2_top_matches_rank (board : List Member) (limit : Int)
    (hs : sortedDesc board) (hnd : nodupKeys board) (hpos : 0 < limit) :
    (∀ e ∈ GetTopUsers board limit,
        GetUserRank board e.userID = Except.ok e.rank)
    ∧ (∀ e1 ∈ GetTopUsers board limit, ∀ e2 ∈ GetTopUsers board limit,
        e1.rating = e2.rating → e1.rank = e2.rank)
    ∧ (∀ (l1 l2 : List LeaderboardEntry) (e e' : LeaderboardEntry),
        GetTopUsers board limit = l1 ++ e :: e' :: l2 → e.rating ≠ e'.rating →
        e'.rank = e.rank + (board.countP (fun p => p.2 == e.rating) : Int)) := by
  have hmap := getTopUsers_eq_map board limit hs hpos
  have hshape : ∀ e ∈ GetTopUsers board limit,
      ∃ p ∈ board.take limit.toNat,
        e = { rank := 1 + ZCountGreater board p.2, userID := p.1, rating := p.2 } := by
    intro e he
    rw [hmap] at he
    obtain ⟨p, hp, hfp⟩ := List.mem_map.mp he
    exact ⟨p, hp, hfp.symm⟩
  refine ⟨?_, ?_, ?_⟩
  · intro e he
    obtain ⟨p, hp, rfl⟩ := hshape e he
    have hmem : p ∈ board := List.take_subset _ _ hp
    have hmem' : (p.1, p.2) ∈ board := by simpa using hmem
    unfold GetUserRank
    rw [ZScore_eq_some hnd hmem']
    exact congrArg Except.ok
      (by show ZCountGreater board p.2 + 1 = 1 + ZCountGreater board p.2; omega)
  · intro e1 he1 e2 he2 hrat
    obtain ⟨p1, _, rfl⟩ := hshape e1 he1
    obtain ⟨p2, _, rfl⟩ := hshape e2 he2
    simp only at hrat ⊢
    rw [hrat]
  · intro l1 l2 e e' hdecomp hne
    rw [hmap] at hdecomp
    obtain ⟨s1, s2, hsplit12, hmap1, hmap2⟩ := List.map_eq_append_iff.mp hdecomp
    obtain ⟨p, s2', hs2, hfp, hmap2'⟩ := List.map_eq_cons_iff.mp hmap2
    obtain ⟨p', s2'', hs2', hfp', _⟩ := List.map_eq_cons_iff.mp hmap2'
    subst hs2'
    subst hs2
    have htakeEq : board.take limit.toNat = s1 ++ p :: p' :: s2'' := hsplit12
    have htakeSorted : sortedDesc (board.take limit.toNat) :=
      List.Pairwise.sublist (List.take_sublist _ _) hs
    have hped : List.Pairwise (fun a b : Member => b.2 ≤ a.2) (s1 ++ p :: p' :: s2'') := by
      rw [← htakeEq]
      exact htakeSorted
    have hparts := List.pairwise_append.mp hped
    have hcons1 := List.pairwise_cons.mp hparts.2.1
    have hcons2 := List.pairwise_cons.mp hcons1.2
    have hrate : e.rating = p.2 := by rw [← hfp]
    have hrate' : e'.rating = p'.2 := by rw [← hfp']
    have hlt : p'.2 < p.2 := by
      have hle : p'.2 ≤ p.2 := hcons1.1 p' (by simp)
      have : p'.2 ≠ p.2 := fun h => hne (by rw [hrate, hrate', h])
      omega
    have hp'take : p' ∈ board.take limit.toNat := by
      rw [htakeEq]; simp
    have hno : ∀ b ∈ board, ¬ (p'.2 < b.2 ∧ b.2 < p.2) := by
      intro b hb
      rw [← List.take_append_drop limit.toNat board] at hb
      rcases List.mem_append.mp hb with htk | hdr
      · rw [htakeEq] at htk
        rcases List.mem_append.mp htk with hb1 | hbc
        · have : p.2 ≤ b.2 := hparts.2.2 b hb1 p (by simp)
          omega
        · rcases List.mem_cons.mp hbc with rfl | hbc'
          · omega
          · rcases List.mem_cons.mp hbc' with rfl | hbc''
            · omega
            · have : b.2 ≤ p'.2 := hcons2.1 b hbc''
              omega
      · have : b.2 ≤ p'.2 := take_cross_le hs p' hp'take b hdr
        omega
    have hcount := ZCountGreater_split hlt hno
    have herank : e.rank = 1 + ZCountGreater board p.2 := by rw [← hfp]
    have herank' : e'.rank = 1 + ZCountGreater board p'.2 := by rw [← hfp']
    rw [herank, herank', hcount, hrate]
    ring

/-- Witness for C2 on the board `A=5000, B=4900, C=4900, D=4800` with
limit 3: the tied users get rank 2 from both paths and the follower rank
jumps by the tie-group size. -/
theorem C2_top_matches_rank_witness :
    GetUserRank [(1, 5000), (2, 4900), (3, 4900), (4, 4800)] 3 = Except.ok 2 ∧
    ({ rank := 2, userID := 2, rating := 4900 } : LeaderboardEntry).rank =
      ({ rank := 1, userID := 1, rating := 5000 } : LeaderboardEntry).rank +
        (([(1, 5000), (2, 4900), (3, 4900), (4, 4800)] : List Member).countP
          (fun p => p.2 == 5000) : Int) := by
  have h := C2_top_matches_rank [(1, 5000), (2, 4900), (3, 4900), (4, 4800)] 3
    (by decide) (by decide) (by decide)
  constructor
  · exact h.1 { rank := 2, userID := 3, rating := 4900 } (by decide)
  · exact h.2.2 [] [{ rank := 2, userID := 3, rating := 4900 }]
      { rank := 1, userID := 1, rating := 5000 }
      { rank := 2, userID := 2, rating := 4900 } (by decide) (by decide)

lemma ZScore_ZAdd (board : List Member) (uid : Nat) (score : Int) :
    ZScore (ZAdd board uid score) uid = some score := by
  unfold ZScore ZAdd
  rw [List.find?_cons_of_pos _ (by simp)]
  rfl

lemma lookupCache_CacheUser (cache : List (Nat × CachedUser)) (u : CachedUser) :
    lookupCache (CacheUser cache u) u.id = some u := by
  unfold lookupCache CacheUser
  rw [List.find?_cons_of_pos _ (by simp)]
  rfl

lemma find?_map_snd_id {l : List (Nat × CachedUser)} {uid : Nat} {u : CachedUser}
    (hwf : ∀ p ∈ l, (p.2 : CachedUser).id = p.1)
    (h : (l.find? (fun p => p.1 == uid)).map Prod.snd = some u) : u.id = uid := by
  cases hf : l.find? (fun p => p.1 == uid) with
  | none => rw [hf] at h; simp at h
  | some pr =>
    rw [hf] at h
    have hu : pr.2 = u := by simpa using h
    have h1 : pr.1 = uid := by simpa using List.find?_some hf
    have h2 := List.mem_of_find?_eq_some hf
    rw [← hu, hwf pr h2, h1]

lemma loadUser_id {w : World} {uid : Nat} {u : CachedUser}
    (hwfc : ∀ p ∈ w.cache, (p.2 : CachedUser).id = p.1)
    (hwfd : ∀ p ∈ w.dbUsers, (p.2 : CachedUser).id = p.1)
    (h : loadUser w uid = some u) : u.id = uid := by
  unfold loadUser at h
  cases hc : lookupCache w.cache uid with
  | some v =>
    rw [hc] at h
    have : v = u := by simpa using h
    subst this
    exact find?_map_snd_id hwfc hc
  | none =>
    rw [hc] at h
    exact find?_map_snd_id hwfd h

lemma seqClamp_eq (r : Int) :
    (if (if r < 100 then (100 : Int) else r) > 5000 then (5000 : Int)
     else if r < 100 then (100 : Int) else r) = clampRating r := by
  unfold clampRating
  split_ifs <;> omega

/-- C4: when the user id is in neither the attribute cache nor the cold
store, `UpdateUserScore` fails with the user-not-found error, and it
publishes no event, enqueues no write-behind item, and leaves the sorted
set and the attribute cache unchanged. -/
theorem C4_unknown_user (w : World) (uid : Nat) (req now : Int)
    (hc : lookupCache w.cache uid = none) (hdb : getByID w.dbUsers uid = none) :
    (UpdateUserScore w uid req now).1 = Except.error "user not found" ∧
    (UpdateUserScore w uid req now).2.published = w.published ∧
    (UpdateUserScore w uid req now).2.stream = w.stream ∧
    (UpdateUserScore w uid req now).2.board = w.board ∧
    (UpdateUserScore w uid req now).2.cache = w.cache := by
  have hload : loadUser w uid = none := by
    unfold loadUser
    rw [hc]
    exact hdb
  unfold UpdateUserScore
  rw [hload]
  exact ⟨rfl, rfl, rfl, rfl, rfl⟩

/-- Witness for C4 on the empty world. -/
theorem C4_unknown_user_witness :
    (UpdateUserScore emptyWorld 1 2000 5).1 = Except.error "user not found" ∧
    (UpdateUserScore emptyWorld 1 2000 5).2.published = emptyWorld.published ∧
    (UpdateUserScore emptyWorld 1 2000 5).2.stream = emptyWorld.stream ∧
    (UpdateUserScore emptyWorld 1 2000 5).2.board = emptyWorld.board ∧
    (UpdateUserScore emptyWorld 1 2000 5).2.cache = emptyWorld.cache :=
  C4_unknown_user emptyWorld 1 2000 5 rfl rfl

/-- C5: a successful `UpdateUserScore` records the requested rating clamped
to [100, 5000] — below 100 becomes 100, above 5000 becomes 5000 — and the
clamped value is what lands in the sorted set, the cached record, the
emitted event and the enqueued write-behind item.  The two well-formedness
hypotheses say cache and cold-store rows are keyed by their own id, which
is how `CacheUser` and the `users` table key them. -/
theorem C5_clamped_write (w : World) (uid : Nat) (req now : Int)
    (payload : ScoreUpdatePayload) (w' : World)
    (hwfc : ∀ p ∈ w.cache, (p.2 : CachedUser).id = p.1)
    (hwfd : ∀ p ∈ w.dbUsers, (p.2 : CachedUser).id = p.1)
    (h : UpdateUserScore w uid req now = (Except.ok payload, w')) :
    (req < 100 → clampRating req = 100) ∧
    (5000 < req → clampRating req = 5000) ∧
    payload.newRating = clampRating req ∧
    ZScore w'.board uid = some (clampRating req) ∧
    (lookupCache w'.cache uid).map CachedUser.rating = some (clampRating req) ∧
    w'.published.getLast? = some payload ∧
    w'.stream.getLast? =
      some { userID := uid, oldRating := payload.oldRating,
             newRating := clampRating req, timestamp := now } := by
  unfold UpdateUserScore at h
  cases hu : loadUser w uid with
  | none =>
    rw [hu] at h
    exact absurd (congrArg Prod.fst h) (by simp)
  | some user =>
    have hid : user.id = uid := loadUser_id hwfc hwfd hu
    rw [hu] at h
    simp only [Prod.mk.injEq, Except.ok.injEq] at h
    obtain ⟨hpay, hw⟩ := h
    subst hpay
    subst hw
    rw [seqClamp_eq req]
    refine ⟨?_, ?_, rfl, ZScore_ZAdd w.board uid _, ?_, ?_, ?_⟩
    · intro hlow
      unfold clampRating
      rw [if_pos hlow]
    · intro hhigh
      unfold clampRating
      rw [if_neg (by omega), if_pos (by omega)]
    · rw [← hid]
      exact congrArg (Option.map CachedUser.rating)
        (lookupCache_CacheUser w.cache _)
    · exact List.getLast?_concat _
    · exact List.getLast?_concat _

/-- Witness for C5: a cached user requests rating 50, which is recorded
as 100 throughout. -/
theorem C5_clamped_write_witness :
    alicePayload.newRating = clampRating 50 ∧
    ZScore aliceWorld'.board 1 = some (clampRating 50) ∧
    (lookupCache aliceWorld'.cache 1).map CachedUser.rating =
      some (clampRating 50) := by
  have h := C5_clamped_write aliceWorld 1 50 7 alicePayload aliceWorld'
    (by decide) (by decide) (by decide)
  exact ⟨h.2.2.1, h.2.2.2.1, h.2.2.2.2.1⟩

/-- C6: in every event emitted by a successful `UpdateUserScore`,
`ratingDelta` is `newRating - oldRating`, with `oldRating` the rating read
from the cache or the cold store before the write, and (in particular when
`oldRank > 0`) `rankDelta` is `oldRank - newRank`. -/
theorem C6_event_deltas (w : World) (uid : Nat) (req now : Int)
    (payload : ScoreUpdatePayload) (w' : World)
    (h : UpdateUserScore w uid req now = (Except.ok payload, w')) :
    payload.ratingDelta = payload.newRating - payload.oldRating ∧
    (0 < payload.oldRank → payload.rankDelta = payload.oldRank - payload.newRank) ∧
    (∀ u, loadUser w uid = some u → payload.oldRating = u.rating) := by
  unfold UpdateUserScore at h
  cases hu : loadUser w uid with
  | none =>
    rw [hu] at h
    exact absurd (congrArg Prod.fst h) (by simp)
  | some user =>
    rw [hu] at h
    simp only [Prod.mk.injEq, Except.ok.injEq] at h
    obtain ⟨hpay, hw⟩ := h
    subst hpay
    refine ⟨rfl, fun _ => rfl, ?_⟩
    intro u huu
    injection huu with h1
    rw [← h1]

/-- Witness for C6: the scenario-2 update `B: 4900 → 4950` on the seeded
board emits `ratingDelta = 50 = 4950 - 4900`. -/
theorem C6_event_deltas_witness :
    scen2Payload.ratingDelta = scen2Payload.newRating - scen2Payload.oldRating ∧
    (0 < scen2Payload.oldRank →
      scen2Payload.rankDelta = scen2Payload.oldRank - scen2Payload.newRank) := by
  have h := C6_event_deltas scen2World 2 4950 9 scen2Payload scen2World' (by decide)
  exact ⟨h.1, h.2.1⟩

/-- C3 counterexample: after the reachable run `badTrace`, the item that
entered the stream as entry 10 (rating 1600, the first entry of the
failed batch) is still pending (unacknowledged), yet its entry has been
trimmed out of the stream — so it is no longer re-deliverable — and it
was never applied to the cold store (no history row, rating never set to
1600).  The claim's `applied or re-deliverable, nothing silently
dropped` is therefore false of the code: `XTRIM MAXLEN` removes
unacknowledged entries once backlog exceeds the bound. -/
theorem C3_counterexample :
    (10 : Nat) ∈ (runPipe initPipe badTrace).pel ∧
    (∀ e ∈ (runPipe initPipe badTrace).entries, e.id ≠ 10) ∧
    (∀ row ∈ (runPipe initPipe badTrace).history, row.newRating ≠ 1600) ∧
    (∀ p ∈ (runPipe initPipe badTrace).users, p.2 ≠ 1600) := by decide

lemma processBatch_empty (s : PipeState) (commitOk : Bool)
    (h : (newMessages s).isEmpty = true) : processBatch s commitOk = s := by
  unfold processBatch
  rw [if_pos h]

lemma processBatch_true_eq (s : PipeState) (h : ¬ (newMessages s).isEmpty = true) :
    processBatch s true =
      if ((s.batchCounter + 1) % 10 == 0) then trimStream (pbCommit s)
      else pbCommit s := by
  unfold processBatch pbCommit batchIds batchItems
  rw [if_neg h]
  rfl

lemma processBatch_false_eq (s : PipeState) (h : ¬ (newMessages s).isEmpty = true) :
    processBatch s false =
      { s with lastDelivered := (batchIds s).getLast?.getD s.lastDelivered,
               pel := s.pel ++ batchIds s } := by
  unfold processBatch batchIds
  rw [if_neg h]
  rfl

/-- C3 amended: the worker acknowledges only after the transaction
commits — a failed transaction leaves the cold store and the stream
untouched and acknowledges nothing (the batch merely becomes pending),
and on commit every delivered item's history row is written before the
batch ids are acknowledged, so any id that stops being pending in a
worker pass had its item applied in that pass.  However, the periodic
trim truncates the stream to its most recent 100 entries regardless of
acknowledgement, so an unacknowledged, unapplied item is dropped once
more than 100 entries are newer than it. -/
theorem C3_ack_after_commit_and_trim :
    (∀ s : PipeState,
      (processBatch s false).users = s.users ∧
      (processBatch s false).history = s.history ∧
      (processBatch s false).entries = s.entries ∧
      (processBatch s false).pel = s.pel ++ batchIds s)
    ∧ (∀ s : PipeState, ∀ e ∈ newMessages s,
        historyRow e.item ∈ (processBatch s true).history)
    ∧ (∀ s : PipeState, ∀ i : Nat,
        i ∈ s.pel ++ batchIds s →
        i ∉ (processBatch s true).pel →
        ∃ e ∈ newMessages s, e.id = i ∧
          historyRow e.item ∈ (processBatch s true).history)
    ∧ (∀ s : PipeState,
        (trimStream s).entries = s.entries.drop (s.entries.length - 100) ∧
        (trimStream s).pel = s.pel ∧
        (trimStream s).history = s.history ∧
        (trimStream s).users = s.users) := by
  have hPelTrue : ∀ s : PipeState, (processBatch s true).pel =
      (s.pel ++ batchIds s).filter (fun j => ¬ (batchIds s).contains j) := by
    intro s
    by_cases hempty : (newMessages s).isEmpty = true
    · rw [processBatch_empty s true hempty]
      have hids : batchIds s = [] := by
        unfold batchIds
        rw [List.isEmpty_iff.mp hempty]
        rfl
      rw [hids, List.append_nil]
      simp
    · rw [processBatch_true_eq s hempty]
      by_cases hmod : ((s.batchCounter + 1) % 10 == 0) = true
      · rw [if_pos hmod]
        rfl
      · rw [if_neg hmod]
        rfl
  have hHist : ∀ s : PipeState, ∀ e ∈ newMessages s,
      historyRow e.item ∈ (processBatch s true).history := by
    intro s e he
    have hempty : ¬ (newMessages s).isEmpty = true := by
      rw [List.isEmpty_iff]
      exact List.ne_nil_of_mem he
    have hmem : historyRow e.item ∈ s.history ++ (batchItems s).map historyRow := by
      refine List.mem_append_right _ ?_
      refine List.mem_map.mpr ⟨e.item, ?_, rfl⟩
      exact List.mem_map.mpr ⟨e, he, rfl⟩
    rw [processBatch_true_eq s hempty]
    by_cases hmod : ((s.batchCounter + 1) % 10 == 0) = true
    · rw [if_pos hmod]
      exact hmem
    · rw [if_neg hmod]
      exact hmem
  refine ⟨?_, hHist, ?_, fun s => ⟨rfl, rfl, rfl, rfl⟩⟩
  · intro s
    by_cases hempty : (newMessages s).isEmpty = true
    · rw [processBatch_empty s false hempty]
      have hids : batchIds s = [] := by
        unfold batchIds
        rw [List.isEmpty_iff.mp hempty]
        rfl
      rw [hids, List.append_nil]
      exact ⟨rfl, rfl, rfl, rfl⟩
    · rw [processBatch_false_eq s hempty]
      exact ⟨rfl, rfl, rfl, rfl⟩
  · intro s i hin hout
    rw [hPelTrue s] at hout
    have hcont : (batchIds s).contains i = true := by
      by_contra hnc
      exact hout (List.mem_filter.mpr ⟨hin, by simpa using hnc⟩)
    have hid : i ∈ batchIds s := by simpa using hcont
    obtain ⟨e, he, heid⟩ := List.mem_map.mp hid
    exact ⟨e, he, heid, hHist s e he⟩

/-- Witness for the amended C3 on the one-entry fixture. -/
theorem C3_ack_after_commit_and_trim_witness :
    (processBatch pipeFix false).users = pipeFix.users ∧
    historyRow fixItem ∈ (processBatch pipeFix true).history ∧
    (trimStream pipeFix).pel = pipeFix.pel := by
  refine ⟨(C3_ack_after_commit_and_trim.1 pipeFix).1, ?_,
    (C3_ack_after_commit_and_trim.2.2.2 pipeFix).2.1⟩
  exact C3_ack_after_commit_and_trim.2.1 pipeFix
    { id := 1, item := fixItem } (by decide)

lemma mySortUsers_sorts :
    SortsBy (fun a b : CachedUser => b.rating ≤ a.rating) mySortUsers := by
  intro l
  refine ⟨List.perm_insertionSort userLe l, ?_⟩
  have h := List.sorted_insertionSort userLe l
  exact List.Pairwise.imp (fun hab => by unfold userLe at hab; omega) h

lemma mySortResults_sorts :
    SortsBy (fun a b : SearchResult => b.rating ≤ a.rating) mySortResults := by
  intro l
  refine ⟨List.perm_insertionSort resultLe l, ?_⟩
  have h := List.sorted_insertionSort resultLe l
  exact List.Pairwise.imp (fun hab => by unfold resultLe at hab; omega) h

/-- C8 counterexample: the stability part of the claim fails.  Go's
`sort.Slice` guarantees only a sorted permutation — it is documented as
not stable and applies no tie-breaker beyond the rating comparison — so
the embedded `SearchUsers` is quantified over any sort meeting that
contract.  Under the contract-satisfying sorts `mySortUsers` /
`mySortResults`, the equal-rated candidates `ann` (id 1) and `anna`
(id 2), given in that candidate order, come back in the opposite order:
no stable (candidate-order-preserving) tie ordering is guaranteed by the
code. -/
theorem C8_counterexample :
    SortsBy (fun a b : CachedUser => b.rating ≤ a.rating) mySortUsers ∧
    SortsBy (fun a b : SearchResult => b.rating ≤ a.rating) mySortResults ∧
    SearchUsers mySortUsers mySortResults searchBoard "an" 10 [candA, candB] =
      [{ globalRank := 1, userID := 2, username := "anna", rating := 1000 },
       { globalRank := 1, userID := 1, username := "ann", rating := 1000 }] :=
  ⟨mySortUsers_sorts, mySortResults_sorts, by decide⟩

/-- C8 amended: for any sorts meeting the `sort.Slice` contract, a
nonempty query, and at most `limit` candidates (the cold-store search is
issued with `LIMIT limit`), the annotation returns exactly the
candidates whose rank lookup succeeds — each annotated with its current
`GetUserRank` — ordered by rating descending; the order among equal
ratings is whatever the unstable sort produces. -/
theorem C8_search_results (sortU : List CachedUser → List CachedUser)
    (sortR : List SearchResult → List SearchResult) (board : List Member)
    (query : String) (limit : Nat) (candidates : List CachedUser)
    (hU : SortsBy (fun a b : CachedUser => b.rating ≤ a.rating) sortU)
    (hR : SortsBy (fun a b : SearchResult => b.rating ≤ a.rating) sortR)
    (hq : 1 ≤ query.length) (hlim : candidates.length ≤ limit) :
    (SearchUsers sortU sortR board query limit candidates).Perm
      (candidates.filterMap (annotate board)) ∧
    List.Pairwise (fun a b : SearchResult => b.rating ≤ a.rating)
      (SearchUsers sortU sortR board query limit candidates) ∧
    (∀ r ∈ SearchUsers sortU sortR board query limit candidates,
      GetUserRank board r.userID = Except.ok r.globalRank) := by
  have hlen : (sortU candidates).length = candidates.length :=
    (hU candidates).1.length_eq
  have hexpand : SearchUsers sortU sortR board query limit candidates =
      sortR ((sortU candidates).filterMap (annotate board)) := by
    unfold SearchUsers
    rw [if_neg (by omega : ¬ query.length < 1)]
    simp only [if_neg (by omega : ¬ (sortU candidates).length > limit)]
  have hperm : (sortR ((sortU candidates).filterMap (annotate board))).Perm
      (candidates.filterMap (annotate board)) := by
    refine ((hR _).1).trans ?_
    exact (hU candidates).1.filterMap (annotate board)
  refine ⟨?_, ?_, ?_⟩
  · rw [hexpand]
    exact hperm
  · rw [hexpand]
    exact (hR _).2
  · intro r hr
    rw [hexpand] at hr
    have hrX : r ∈ (sortU candidates).filterMap (annotate board) :=
      ((hR _).1.mem_iff).mp hr
    obtain ⟨u, hu, hann⟩ := List.mem_filterMap.mp hrX
    unfold annotate at hann
    cases hrk : GetUserRank board u.id with
    | error e =>
      rw [hrk] at hann
      simp at hann
    | ok rank =>
      rw [hrk] at hann
      have hre :
          r = { globalRank := rank, userID := u.id, username := u.username, rating := u.rating } := by
        injection hann with h1
        exact h1.symm
      rw [hre]
      exact hrk

/-- Witness for the amended C8 on the two-candidate fixture. -/
theorem C8_search_results_witness :
    (SearchUsers mySortUsers mySortResults searchBoard "an" 10
      [candA, candB]).Perm ([candA, candB].filterMap (annotate searchBoard)) ∧
    List.Pairwise (fun a b : SearchResult => b.rating ≤ a.rating)
      (SearchUsers mySortUsers mySortResults searchBoard "an" 10
        [candA, candB]) ∧
    GetUserRank searchBoard 1 = Except.ok 1 := by
  have h := C8_search_results mySortUsers mySortResults searchBoard "an" 10
    [candA, candB] mySortUsers_sorts mySortResults_sorts (by decide) (by decide)
  refine ⟨h.1, h.2.1, ?_⟩
  exact h.2.2 { globalRank := 1, userID := 1, username := "ann", rating := 1000 }
    (by decide)

/-- C9 counterexample: `GetCachedUser` maps a transport error from
`HGETALL` and an empty reply (a plain cache miss) to the *same*
`user not in cache` error, so a transport error is not surfaced as an
error distinct from a miss. -/
theorem C9_counterexample :
    GetCachedUserRepo (HGetAllReply.err "connection refused") =
      GetCachedUserRepo (HGetAllReply.ok []) ∧
    GetCachedUserRepo (HGetAllReply.err "connection refused") =
      Except.error "user not in cache" :=
  ⟨rfl, rfl⟩

/-- C9 amended: a transport error is surfaced as an error and no retry is
issued (the function consists of a single `HGETALL` on one reply), but
the error is collapsed into the same `user not in cache` error a miss
produces; a nonempty reply parses into the cached record, with
unparseable numeric fields read as 0. -/
theorem C9_error_conflated_no_retry :
    (∀ msg : String,
      GetCachedUserRepo (HGetAllReply.err msg) =
        Except.error "user not in cache") ∧
    GetCachedUserRepo (HGetAllReply.ok []) = Except.error "user not in cache" ∧
    (∀ fields : List (String × String), fields ≠ [] →
      GetCachedUserRepo (HGetAllReply.ok fields) = Except.ok
        { id := (parseNatStr (hgetField fields "id")).getD 0,
          username := hgetField fields "username",
          rating := (parseIntStr (hgetField fields "rating")).getD 0 }) := by
  refine ⟨fun msg => rfl, rfl, ?_⟩
  intro fields hne
  cases fields with
  | nil => exact absurd rfl hne
  | cons f fs => rfl

/-- Witness for the amended C9: a transport error and a well-formed
reply. -/
theorem C9_error_conflated_no_retry_witness :
    GetCachedUserRepo (HGetAllReply.err "connection refused") =
      Except.error "user not in cache" ∧
    GetCachedUserRepo
        (HGetAllReply.ok [("id", "1"), ("username", "ann"), ("rating", "1000")]) =
      Except.ok { id := 1, username := "ann", rating := 1000 } := by
  have h := C9_error_conflated_no_retry
  refine ⟨h.1 "connection refused", ?_⟩
  have h3 := h.2.2 [("id", "1"), ("username", "ann"), ("rating", "1000")]
    (by decide)
  rw [h3]
  decide

lemma hub_run_inv : ∀ (events : List HubEvent) (s : HubState) (reg : List Nat),
    HubInv s reg → (reg ++ registerIds events).Nodup →
    HubInv (events.foldl hubStep s) (reg ++ registerIds events) := by
  intro events
  induction events with
  | nil =>
    intro s reg hinv _
    simpa [registerIds] using hinv
  | cons ev evs ih =>
    intro s reg hinv hnd
    cases ev with
    | register c =>
      have hrids : registerIds (HubEvent.register c :: evs) =
          c :: registerIds evs := rfl
      rw [hrids] at hnd ⊢
      have hassoc : reg ++ c :: registerIds evs =
          (reg ++ [c]) ++ registerIds evs := by simp
      rw [hassoc] at hnd ⊢
      rw [List.foldl_cons]
      apply ih _ _ ?_ hnd
      have hcreg : c ∉ reg := by
        have h1 := (List.nodup_append.mp hnd).1
        have h2 := (List.nodup_append.mp h1).2.2
        intro hcmem
        exact h2 hcmem (by simp)
      obtain ⟨hcn, hxn, hcx, hcr, hxr⟩ := hinv
      have hc_cl : c ∉ s.clients := fun h => hcreg (hcr c h)
      have hc_xs : c ∉ s.closes := fun h => hcreg (hxr c h)
      show HubInv
        (if c ∈ s.clients then s
         else { clients := c :: s.clients, closes := s.closes }) (reg ++ [c])
      rw [if_neg hc_cl]
      refine ⟨List.nodup_cons.mpr ⟨hc_cl, hcn⟩, hxn, ?_, ?_, ?_⟩
      · intro x hx
        rcases List.mem_cons.mp hx with rfl | hx'
        · exact hc_xs
        · exact hcx x hx'
      · intro x hx
        rcases List.mem_cons.mp hx with rfl | hx'
        · exact List.mem_append_right _ (by simp)
        · exact List.mem_append_left _ (hcr x hx')
      · intro x hx
        exact List.mem_append_left _ (hxr x hx)
    | unregister c =>
      have hrids : registerIds (HubEvent.unregister c :: evs) =
          registerIds evs := rfl
      rw [hrids] at hnd ⊢
      rw [List.foldl_cons]
      apply ih _ _ ?_ hnd
      obtain ⟨hcn, hxn, hcx, hcr, hxr⟩ := hinv
      show HubInv
        (if c ∈ s.clients then
          { clients := s.clients.erase c, closes := s.closes ++ [c] }
         else s) reg
      by_cases hc : c ∈ s.clients
      · rw [if_pos hc]
        refine ⟨hcn.erase c, ?_, ?_, ?_, ?_⟩
        · rw [List.nodup_append]
          refine ⟨hxn, List.nodup_singleton c, ?_⟩
          intro a ha hamem
          rw [List.mem_singleton] at hamem
          subst hamem
          exact hcx a hc ha
        · intro x hx
          obtain ⟨hne, hxcl⟩ := (List.Nodup.mem_erase_iff hcn).mp hx
          intro hmem
          rcases List.mem_append.mp hmem with h1 | h2
          · exact hcx x hxcl h1
          · exact hne (List.mem_singleton.mp h2)
        · intro x hx
          exact hcr x (List.mem_of_mem_erase hx)
        · intro x hx
          rcases List.mem_append.mp hx with h1 | h2
          · exact hxr x h1
          · rw [List.mem_singleton.mp h2]
            exact hcr c hc
      · rw [if_neg hc]
        exact ⟨hcn, hxn, hcx, hcr, hxr⟩
    | broadcast full =>
      have hrids : registerIds (HubEvent.broadcast full :: evs) =
          registerIds evs := rfl
      rw [hrids] at hnd ⊢
      rw [List.foldl_cons]
      apply ih _ _ ?_ hnd
      obtain ⟨hcn, hxn, hcx, hcr, hxr⟩ := hinv
      show HubInv
        { clients := s.clients.filter (fun c => ¬ full.contains c),
          closes := s.closes ++ s.clients.filter (fun c => full.contains c) } reg
      refine ⟨List.Nodup.filter _ hcn, ?_, ?_, ?_, ?_⟩
      · rw [List.nodup_append]
        refine ⟨hxn, List.Nodup.filter _ hcn, ?_⟩
        intro a ha hamem
        exact hcx a (List.mem_of_mem_filter hamem) ha
      · intro x hx
        have hx1 := List.mem_filter.mp hx
        intro hmem
        rcases List.mem_append.mp hmem with h1 | h2
        · exact hcx x hx1.1 h1
        · have hx2 := List.mem_filter.mp h2
          have : ¬ full.contains x = true := by simpa using hx1.2
          exact this hx2.2
      · intro x hx
        exact hcr x (List.mem_of_mem_filter hx)
      · intro x hx
        rcases List.mem_append.mp hx with h1 | h2
        · exact hxr x h1
        · exact hcr x (List.mem_of_mem_filter h2)

/-- C10: over every run of the hub loop in which each registered client
is a fresh allocation (register ids pairwise distinct, as with Go's
`*Client` pointers), no send channel is ever closed twice and no live
client's channel is closed — broadcast eviction closes and deletes in
the same critical section, so a later unregister of an evicted client
finds it absent and, as the second conjunct states, changes nothing and
closes nothing. -/
theorem C10_close_once (events : List HubEvent)
    (hfresh : (registerIds events).Nodup) :
    ((runHub events).closes.Nodup ∧
      ∀ c ∈ (runHub events).clients, c ∉ (runHub events).closes) ∧
    (∀ (s : HubState) (c : Nat), c ∉ s.clients →
      hubStep s (HubEvent.unregister c) = s) := by
  constructor
  · have h := hub_run_inv events { clients := [], closes := [] } []
      ⟨List.nodup_nil, List.nodup_nil, by simp, by simp, by simp⟩
      (by simpa using hfresh)
    exact ⟨h.2.1, h.2.2.1⟩
  · intro s c hc
    show (if c ∈ s.clients then
        { clients := s.clients.erase c, closes := s.closes ++ [c] } else s) = s
    rw [if_neg hc]

/-- Witness for C10: client 1 is evicted by a broadcast; its later
unregister closes nothing, and in the final state every channel was
closed exactly once. -/
theorem C10_close_once_witness :
    ((runHub hubTrace).closes.Nodup ∧
      ∀ c ∈ (runHub hubTrace).clients, c ∉ (runHub hubTrace).closes) ∧
    hubStep { clients := [5], closes := [] } (HubEvent.unregister 7) =
      { clients := [5], closes := [] } := by
  have h := C10_close_once hubTrace (by decide)
  exact ⟨h.1, h.2 { clients := [5], closes := [] } 7 (by decide)⟩

end Leaderboard
